import Mathlib

/-!
Verification of the chain-integrity engine of `blockchain-with-arbiter`.

The repository contains two variants of the same design:
* `HashOnly` embeds `src/unnamed/part_000`: blocks carry `previousHash`,
  `timestamp`, `data`, `hash`; no signatures.
* `Signed` embeds `src/index.ts`: blocks additionally carry an optional
  authority `signature`, verified through a module-global Node `Verify`
  object against the arbiter public key.

SHA-256 and RSA-SHA256 verification are platform primitives; they are
modelled as explicit function parameters (`hashFn : String → String`,
`rsaVerify : String → String → Bool`).  Everything else is translated
from the source.  JavaScript template interpolation of an `undefined`
signature yields the literal string "undefined"; Node `Verify` objects
are single-use (an `update` or `verify` after the first `verify` call
throws), and `verify` with an `undefined` signature argument throws a
TypeError — both are modelled with an `Except` error channel.
-/

instance {ε α : Type} [DecidableEq ε] [DecidableEq α] : DecidableEq (Except ε α) := fun x y =>
  match x, y with
  | Except.error a, Except.error b =>
    if h : a = b then Decidable.isTrue (by rw [h])
    else Decidable.isFalse (fun hh => h (by injection hh))
  | Except.error _, Except.ok _ => Decidable.isFalse (fun hh => Except.noConfusion hh)
  | Except.ok _, Except.error _ => Decidable.isFalse (fun hh => Except.noConfusion hh)
  | Except.ok a, Except.ok b =>
    if h : a = b then Decidable.isTrue (by rw [h])
    else Decidable.isFalse (fun hh => h (by injection hh))

/-- Verdict labels printed by `printBlockchain`, one per block. -/
inductive Verdict where
  | genesis
  | confirmed
  | invalid
  | aboveInvalid
deriving Repr, DecidableEq

namespace HashOnly

/-- Block of `src/unnamed/part_000`: `previousHash`, `timestamp`, `data`, `hash`. -/
structure Block where
  previousHash : String
  timestamp : Nat
  data : String
  hash : String
deriving Repr, DecidableEq

/-- String digested by `calculateHash`: template literal
`previousHash` then `timestamp` then `data`, no delimiters. -/
def calculateHashPayload (previousHash : String) (timestamp : Nat) (data : String) : String :=
  previousHash ++ toString timestamp ++ data

/-- Model of `calculateHash` (SHA-256 abstracted as `hashFn`). -/
def calculateHash (hashFn : String → String) (previousHash : String) (timestamp : Nat)
    (data : String) : String :=
  hashFn (calculateHashPayload previousHash timestamp data)

/-- Model of the `Block` constructor: `this.hash = hash ?? calculateHash(this)`. -/
def mkBlock (hashFn : String → String) (previousHash : String) (timestamp : Nat)
    (data : String) (hash : Option String) : Block :=
  { previousHash := previousHash, timestamp := timestamp, data := data,
    hash := hash.getD (calculateHash hashFn previousHash timestamp data) }

/-- Getter `isVerified`: recomputed digest equals the stored `hash`.
Defined in the source but never called by `printBlockchain`. -/
def Block.isVerified (hashFn : String → String) (b : Block) : Bool :=
  calculateHash hashFn b.previousHash b.timestamp b.data == b.hash

/-- Method `isPreviousBlock(block)`: `block.hash === this.previousHash`. -/
def Block.isPreviousBlock (b prev : Block) : Bool :=
  prev.hash == b.previousHash

/-- Model of `createGenesisBlock`: `new Block("0", Date.now(), "Genesis")`. -/
def createGenesisBlock (hashFn : String → String) (now : Nat) : Block :=
  mkBlock hashFn "0" now "Genesis" none

/-- Model of `generateNextBlock`: links to `blockchain[blockchain.length - 1]`;
`none` models the crash on an empty chain. -/
def generateNextBlock (hashFn : String → String) (blockchain : List Block)
    (blockData : String) (now : Nat) : Option Block :=
  blockchain.getLast?.map fun previousBlock => mkBlock hashFn previousBlock.hash now blockData none

/-- Loop body of `printBlockchain` for indices `i > 0`, carrying the previous
block and the `errorAfterUnverified` latch.  The source checks only
`block.isPreviousBlock(blockchain[i - 1])`; it never reads `isVerified`. -/
def printBlockchainFrom (prev : Block) (errorAfterUnverified : Bool) :
    List Block → List Verdict
  | [] => []
  | b :: rest =>
    if errorAfterUnverified then
      Verdict.aboveInvalid :: printBlockchainFrom b true rest
    else if b.isPreviousBlock prev then
      Verdict.confirmed :: printBlockchainFrom b false rest
    else
      Verdict.invalid :: printBlockchainFrom b true rest

/-- Model of `printBlockchain`: the sequence of labels it prints. -/
def printBlockchain : List Block → List Verdict
  | [] => []
  | g :: rest => Verdict.genesis :: printBlockchainFrom g false rest

/-- In-place tamper `blockchain[k].data = newMessage` (no rehash). -/
def setData : List Block → Nat → String → List Block
  | [], _, _ => []
  | b :: rest, 0, newMessage => { b with data := newMessage } :: rest
  | b :: rest, Nat.succ k, newMessage => b :: setData rest k newMessage

/-- One `CLI.addBlock` step: `blockchain.push(generateNextBlock(...))`. -/
def appendBlock (hashFn : String → String) (blockchain : List Block)
    (blockData : String) (now : Nat) : List Block :=
  match generateNextBlock hashFn blockchain blockData now with
  | some b => blockchain ++ [b]
  | none => blockchain

/-- Chain grown from `g` solely by sequential `appendBlock` calls. -/
def buildChain (hashFn : String → String) (g : Block) (items : List (String × Nat)) :
    List Block :=
  items.foldl (fun chain it => appendBlock hashFn chain it.1 it.2) [g]

end HashOnly

namespace Signed

/-- Block of `src/index.ts`: adds the optional authority `signature`. -/
structure Block where
  previousHash : String
  timestamp : Nat
  data : String
  hash : String
  signature : Option String
deriving Repr, DecidableEq

/-- Constructor/loader input `IBlock`: `signature` and `hash` are optional. -/
structure IBlock where
  previousHash : String
  timestamp : Nat
  data : String
  signature : Option String
  hash : Option String
deriving Repr, DecidableEq

/-- Template interpolation of the optional signature: an absent value is
rendered as the literal string "undefined". -/
def sigInterp : Option String → String
  | none => "undefined"
  | some s => s

/-- String digested by `calculateHash` and fed to `verifier.update`:
`previousHash` then `timestamp` then `data` then interpolated `signature`. -/
def calculateHashPayload (previousHash : String) (timestamp : Nat) (data : String)
    (signature : Option String) : String :=
  previousHash ++ toString timestamp ++ data ++ sigInterp signature

/-- Model of `calculateHash` over a constructed block. -/
def calculateHash (hashFn : String → String) (b : Block) : String :=
  hashFn (calculateHashPayload b.previousHash b.timestamp b.data b.signature)

/-- Model of the `Block` constructor.  The source assigns `this.hash` before
`this.signature`, so when `blockData.hash` is absent the digest is computed
while `this.signature` is still undefined — whatever `blockData.signature`
holds, the computed hash interpolates "undefined". -/
def mkBlock (hashFn : String → String) (blockData : IBlock) : Block :=
  { previousHash := blockData.previousHash
    timestamp := blockData.timestamp
    data := blockData.data
    hash := blockData.hash.getD
      (hashFn (calculateHashPayload blockData.previousHash blockData.timestamp blockData.data none))
    signature := blockData.signature }

/-- State of the module-global Node `Verify` object: accumulated update
buffer plus whether `verify()` has already been called (single-use). -/
structure VerifierState where
  buffer : String
  finalized : Bool
deriving Repr, DecidableEq

/-- Exceptions the `isVerified` getter can raise: `update`/`verify` on the
already-finalized global `Verify` object, and `verify` with an undefined
signature argument (`this.signature!`). -/
inductive CryptoError where
  | updateAfterFinal
  | signatureNotString
deriving Repr, DecidableEq

/-- Method `isPreviousBlock(block)`: `block.hash === this.previousHash`. -/
def Block.isPreviousBlock (b prev : Block) : Bool :=
  prev.hash == b.previousHash

/-- Getter `isVerified`: `verifier.update(payload)` then
`verifier.verify(key, this.signature!, "hex")` on the module-global
verifier.  RSA-SHA256 verification against the arbiter key is abstracted
as `rsaVerify buffer signature`. -/
def Block.isVerified (rsaVerify : String → String → Bool) (vs : VerifierState)
    (b : Block) : Except CryptoError (Bool × VerifierState) :=
  if vs.finalized then Except.error CryptoError.updateAfterFinal
  else
    let buffer := vs.buffer ++ calculateHashPayload b.previousHash b.timestamp b.data b.signature
    match b.signature with
    | none => Except.error CryptoError.signatureNotString
    | some s => Except.ok (rsaVerify buffer s, { buffer := buffer, finalized := true })

/-- Method `sign()`: awaits the arbiter response and stores the returned
signature.  The stored `hash` is not touched.  `fetchResult` is the outcome
of the network round-trip (`Except.error` = transport/shape failure). -/
def Block.sign (fetchResult : Except String String) (b : Block) : Except String Block :=
  Except.map (fun signature => { b with signature := some signature }) fetchResult

/-- Digest string `sign()` submits to the arbiter: `calculateHash(this)`
evaluated before a signature is attached. -/
def signDigest (hashFn : String → String) (b : Block) : String :=
  calculateHash hashFn b

/-- Model of `createGenesisBlock`. -/
def createGenesisBlock (hashFn : String → String) (now : Nat) : Block :=
  mkBlock hashFn
    { previousHash := "", timestamp := now, data := "Genesis", signature := none, hash := none }

/-- Block as constructed inside `generateNextBlock` before `sign()` runs. -/
def preSignBlock (hashFn : String → String) (previousBlock : Block) (blockData : String)
    (now : Nat) : Block :=
  mkBlock hashFn
    { previousHash := previousBlock.hash, timestamp := now, data := blockData,
      signature := none, hash := none }

/-- Model of `generateNextBlock`: build the block, then `await block.sign()`. -/
def generateNextBlock (hashFn : String → String) (fetchResult : Except String String)
    (previousBlock : Block) (blockData : String) (now : Nat) : Except String Block :=
  Block.sign fetchResult (preSignBlock hashFn previousBlock blockData now)

/-- Loop body of `printBlockchain` for indices `i > 0`.  Carries the
previous block, the `errorAfterUnverified` latch and the global verifier
state; a crash inside `isVerified` aborts the whole scan. -/
def printBlockchainFrom (rsaVerify : String → String → Bool) (prev : Block)
    (errorAfterUnverified : Bool) (vs : VerifierState) :
    List Block → Except CryptoError (List Verdict)
  | [] => Except.ok []
  | b :: rest =>
    if errorAfterUnverified then
      Except.map (fun out => Verdict.aboveInvalid :: out)
        (printBlockchainFrom rsaVerify b true vs rest)
    else if b.isPreviousBlock prev then
      match b.isVerified rsaVerify vs with
      | Except.error e => Except.error e
      | Except.ok (true, vs') =>
        Except.map (fun out => Verdict.confirmed :: out)
          (printBlockchainFrom rsaVerify b false vs' rest)
      | Except.ok (false, vs') =>
        Except.map (fun out => Verdict.invalid :: out)
          (printBlockchainFrom rsaVerify b true vs' rest)
    else
      Except.map (fun out => Verdict.invalid :: out)
        (printBlockchainFrom rsaVerify b true vs rest)

/-- Model of `printBlockchain` in the signed variant: the labels printed,
or the exception that aborted the scan.  The global verifier starts fresh. -/
def printBlockchain (rsaVerify : String → String → Bool) :
    List Block → Except CryptoError (List Verdict)
  | [] => Except.ok []
  | g :: rest =>
    Except.map (fun out => Verdict.genesis :: out)
      (printBlockchainFrom rsaVerify g false { buffer := "", finalized := false } rest)

/-- In-memory chain plus the last persisted snapshot (`blockchain.json`). -/
structure ChainState where
  chain : List Block
  saved : List Block
deriving Repr, DecidableEq

/-- Model of `CLI.addBlock`: takes the last block (`blockchain.at(-1)!`),
builds and signs the next block, then pushes and saves.  On a signing
failure the rejection propagates before `push`/`saveBlockchain` run, so the
returned state is the input state. -/
def addBlock (hashFn : String → String) (fetchResult : Except String String)
    (blockData : String) (now : Nat) (st : ChainState) : Except String Unit × ChainState :=
  match st.chain.getLast? with
  | none => (Except.error "TypeError", st)
  | some previousBlock =>
    match generateNextBlock hashFn fetchResult previousBlock blockData now with
    | Except.error e => (Except.error e, st)
    | Except.ok newBlock =>
      (Except.ok (), { chain := st.chain ++ [newBlock], saved := st.chain ++ [newBlock] })

/-- Outcome of a CLI remove/modify request. -/
inductive CliOutcome where
  | performed
  | rejected
  | crashed
deriving Repr, DecidableEq

/-- ECMAScript `splice(start, 1)` start normalization: a negative start
counts from the end, clamped at 0; a large start is clamped at `len`. -/
def spliceStart (len : Nat) (idx : Int) : Nat :=
  if idx < 0 then (max ((len : Int) + idx) 0).toNat else min idx.toNat len

/-- In-place `blockchain[k].data = newMessage` on the signed block list. -/
def setData : List Block → Nat → String → List Block
  | [], _, _ => []
  | b :: rest, 0, newMessage => { b with data := newMessage } :: rest
  | b :: rest, Nat.succ k, newMessage => b :: setData rest k newMessage

/-- Model of `CLI.removeBlock`: guard `blockIndex < blockchain.length`
(no lower bound), then `blockchain.splice(blockIndex, 1)` and save. -/
def removeBlock (idx : Int) (st : ChainState) : CliOutcome × ChainState :=
  if idx < (st.chain.length : Int) then
    let s := spliceStart st.chain.length idx
    let c := st.chain.take s ++ st.chain.drop (s + 1)
    (CliOutcome.performed, { chain := c, saved := c })
  else (CliOutcome.rejected, st)

/-- Model of `CLI.modifyBlock`: same guard; a negative index then hits
`blockchain[idx]` = undefined and the `.data` assignment throws before any
mutation or save. -/
def modifyBlock (idx : Int) (newMessage : String) (st : ChainState) :
    CliOutcome × ChainState :=
  if idx < (st.chain.length : Int) then
    if 0 ≤ idx then
      let c := setData st.chain idx.toNat newMessage
      (CliOutcome.performed, { chain := c, saved := c })
    else (CliOutcome.crashed, st)
  else (CliOutcome.rejected, st)

/-- Model of `loadBlockchain` on an already-parsed snapshot: each record is
passed through the `Block` constructor, which fills a missing `hash` with
the recomputed digest. -/
def loadBlockchain (hashFn : String → String) (records : List IBlock) : List Block :=
  records.map (mkBlock hashFn)

end Signed

theorem replicate_get?_of_lt {α : Type} (a : α) :
    ∀ (n m : Nat), m < n → (List.replicate n a).get? m = some a := by
  intro n
  induction n with
  | zero => intro m hm; exact absurd hm (Nat.not_lt_zero m)
  | succ n ih =>
    intro m hm
    cases m with
    | zero => rfl
    | succ m => exact ih m (Nat.lt_of_succ_lt_succ hm)

theorem eq_of_replicate_get? {α : Type} {a x : α} :
    ∀ {n m : Nat}, (List.replicate n a).get? m = some x → x = a := by
  intro n
  induction n with
  | zero => intro m h; simp [List.replicate] at h
  | succ n ih =>
    intro m h
    cases m with
    | zero => simpa [List.replicate_succ] using h.symm
    | succ m => exact ih (by simpa [List.replicate_succ] using h)

theorem hashOnly_from_congr (rest : List HashOnly.Block) :
    ∀ (prev prev' : HashOnly.Block) (f : Bool), prev.hash = prev'.hash →
      HashOnly.printBlockchainFrom prev f rest = HashOnly.printBlockchainFrom prev' f rest := by
  induction rest with
  | nil => intro prev prev' f h; rfl
  | cons b rest ih =>
    intro prev prev' f h
    simp only [HashOnly.printBlockchainFrom, HashOnly.Block.isPreviousBlock, h]

theorem hashOnly_from_setData (k : Nat) (d : String) :
    ∀ (rest : List HashOnly.Block) (prev : HashOnly.Block) (f : Bool),
      HashOnly.printBlockchainFrom prev f (HashOnly.setData rest k d) =
        HashOnly.printBlockchainFrom prev f rest := by
  induction k with
  | zero =>
    intro rest prev f
    cases rest with
    | nil => rfl
    | cons b rest =>
      simp only [HashOnly.setData, HashOnly.printBlockchainFrom, HashOnly.Block.isPreviousBlock]
      rw [hashOnly_from_congr rest { b with data := d } b true rfl,
        hashOnly_from_congr rest { b with data := d } b false rfl]
  | succ k ih =>
    intro rest prev f
    cases rest with
    | nil => rfl
    | cons b rest =>
      simp only [HashOnly.setData, HashOnly.printBlockchainFrom, ih]

theorem hashOnly_setData_printBlockchain (chain : List HashOnly.Block) (k : Nat) (d : String) :
    HashOnly.printBlockchain (HashOnly.setData chain k d) = HashOnly.printBlockchain chain := by
  cases chain with
  | nil => rfl
  | cons g rest =>
    cases k with
    | zero =>
      simp only [HashOnly.setData, HashOnly.printBlockchain]
      exact congrArg _ (hashOnly_from_congr rest _ g false rfl)
    | succ k =>
      simp only [HashOnly.setData, HashOnly.printBlockchain, hashOnly_from_setData]

theorem hashOnly_from_length (rest : List HashOnly.Block) :
    ∀ (prev : HashOnly.Block) (f : Bool),
      (HashOnly.printBlockchainFrom prev f rest).length = rest.length := by
  induction rest with
  | nil => intro prev f; rfl
  | cons b rest ih =>
    intro prev f
    simp only [HashOnly.printBlockchainFrom]
    split
    · simp [ih]
    · split <;> simp [ih]

theorem hashOnly_from_broken (rest : List HashOnly.Block) :
    ∀ prev : HashOnly.Block,
      HashOnly.printBlockchainFrom prev true rest =
        List.replicate rest.length Verdict.aboveInvalid := by
  induction rest with
  | nil => intro prev; rfl
  | cons b rest ih =>
    intro prev
    simp [HashOnly.printBlockchainFrom, ih, List.replicate_succ]

theorem hashOnly_from_append (rest : List HashOnly.Block) :
    ∀ (prev b : HashOnly.Block),
      HashOnly.printBlockchainFrom prev false rest =
        List.replicate rest.length Verdict.confirmed →
      b.previousHash = ((prev :: rest).getLast (List.cons_ne_nil _ _)).hash →
      HashOnly.printBlockchainFrom prev false (rest ++ [b]) =
        List.replicate (rest.length + 1) Verdict.confirmed := by
  induction rest with
  | nil =>
    intro prev b _ hlink
    simp only [List.getLast_singleton] at hlink
    simp [HashOnly.printBlockchainFrom, HashOnly.Block.isPreviousBlock, hlink,
      List.replicate_succ]
  | cons c rest ih =>
    intro prev b hconf hlink
    by_cases hc : c.isPreviousBlock prev
    · have hrest : HashOnly.printBlockchainFrom c false rest =
          List.replicate rest.length Verdict.confirmed := by
        simpa [HashOnly.printBlockchainFrom, hc, List.replicate_succ] using hconf
      have hlink' : b.previousHash = ((c :: rest).getLast (List.cons_ne_nil _ _)).hash := by
        rw [hlink]
        exact congrArg _ (List.getLast_cons (List.cons_ne_nil _ _))
      simp [HashOnly.printBlockchainFrom, hc, List.replicate_succ, ih c b hrest hlink']
    · exfalso
      have := hconf
      simp [HashOnly.printBlockchainFrom, hc, List.replicate_succ] at this

theorem hashOnly_buildChain_aux (hashFn : String → String) (items : List (String × Nat)) :
    ∀ (g : HashOnly.Block) (rest : List HashOnly.Block),
      HashOnly.printBlockchainFrom g false rest =
        List.replicate rest.length Verdict.confirmed →
      ∃ rest',
        List.foldl (fun chain it => HashOnly.appendBlock hashFn chain it.1 it.2)
            (g :: rest) items = g :: rest' ∧
        HashOnly.printBlockchainFrom g false rest' =
          List.replicate rest'.length Verdict.confirmed ∧
        rest'.length = rest.length + items.length := by
  induction items with
  | nil => intro g rest h; exact ⟨rest, rfl, h, rfl⟩
  | cons it items ih =>
    intro g rest h
    have hne : (g :: rest) ≠ [] := List.cons_ne_nil _ _
    have hlast : (g :: rest).getLast? = some ((g :: rest).getLast hne) :=
      List.getLast?_eq_getLast _ hne
    have happ : HashOnly.appendBlock hashFn (g :: rest) it.1 it.2 =
        g :: (rest ++ [HashOnly.mkBlock hashFn ((g :: rest).getLast hne).hash it.2 it.1 none]) := by
      simp [HashOnly.appendBlock, HashOnly.generateNextBlock, hlast]
    have hverd := hashOnly_from_append rest g
      (HashOnly.mkBlock hashFn ((g :: rest).getLast hne).hash it.2 it.1 none) h rfl
    obtain ⟨rest', h1, h2, h3⟩ := ih g
      (rest ++ [HashOnly.mkBlock hashFn ((g :: rest).getLast hne).hash it.2 it.1 none])
      (by simpa using hverd)
    refine ⟨rest', ?_, h2, ?_⟩
    · simpa [happ] using h1
    · simp only [List.length_append, List.length_cons, List.length_nil] at h3 ⊢
      omega

theorem hashOnly_buildChain_confirmed (hashFn : String → String) (now : Nat)
    (items : List (String × Nat)) :
    HashOnly.printBlockchain
        (HashOnly.buildChain hashFn (HashOnly.createGenesisBlock hashFn now) items) =
      Verdict.genesis :: List.replicate items.length Verdict.confirmed := by
  obtain ⟨rest', h1, h2, h3⟩ :=
    hashOnly_buildChain_aux hashFn items (HashOnly.createGenesisBlock hashFn now) [] rfl
  rw [HashOnly.buildChain, h1, HashOnly.printBlockchain, h2, h3]
  simp

theorem hashOnly_latch_from (rest : List HashOnly.Block) :
    ∀ (prev : HashOnly.Block) (i j : Nat), i < j → j < rest.length →
      (HashOnly.printBlockchainFrom prev false rest).get? i = some Verdict.invalid →
      (HashOnly.printBlockchainFrom prev false rest).get? j = some Verdict.aboveInvalid := by
  induction rest with
  | nil => intro prev i j hij hj hi; exact absurd hj (Nat.not_lt_zero j)
  | cons b rest ih =>
    intro prev i j hij hj hi
    obtain ⟨j', rfl⟩ : ∃ j', j = j' + 1 := by
      cases j with
      | zero => exact absurd hij (Nat.not_lt_zero i)
      | succ j' => exact ⟨j', rfl⟩
    have hj' : j' < rest.length := by
      simp only [List.length_cons] at hj
      omega
    by_cases hb : b.isPreviousBlock prev
    · cases i with
      | zero => simp [HashOnly.printBlockchainFrom, hb] at hi
      | succ i' =>
        simp only [HashOnly.printBlockchainFrom, hb, if_true, Bool.false_eq_true,
          if_false, List.get?_cons_succ] at hi ⊢
        exact ih b i' j' (Nat.lt_of_succ_lt_succ hij) hj' hi
    · simp only [HashOnly.printBlockchainFrom, hb, Bool.false_eq_true, if_false,
        List.get?_cons_succ, hashOnly_from_broken] at hi ⊢
      cases i with
      | zero => exact replicate_get?_of_lt _ _ _ hj'
      | succ i' =>
        rw [List.get?_cons_succ] at hi
        exact absurd (eq_of_replicate_get? hi) (by decide)

theorem hashOnly_latch (chain : List HashOnly.Block) (i j : Nat) :
    i < j → j < (HashOnly.printBlockchain chain).length →
    (HashOnly.printBlockchain chain).get? i = some Verdict.invalid →
    (HashOnly.printBlockchain chain).get? j = some Verdict.aboveInvalid := by
  intro hij hj hi
  cases chain with
  | nil => simp [HashOnly.printBlockchain] at hj
  | cons g rest =>
    obtain ⟨j', rfl⟩ : ∃ j', j = j' + 1 := by
      cases j with
      | zero => exact absurd hij (Nat.not_lt_zero i)
      | succ j' => exact ⟨j', rfl⟩
    cases i with
    | zero => simp [HashOnly.printBlockchain] at hi
    | succ i' =>
      simp only [HashOnly.printBlockchain, List.get?_cons_succ] at hi ⊢
      have hj' : j' < rest.length := by
        simp only [HashOnly.printBlockchain, List.length_cons, hashOnly_from_length] at hj
        omega
      exact hashOnly_latch_from rest g i' j' (Nat.lt_of_succ_lt_succ hij) hj' hi

theorem signed_from_broken (rv : String → String → Bool) (rest : List Signed.Block) :
    ∀ (prev : Signed.Block) (vs : Signed.VerifierState),
      Signed.printBlockchainFrom rv prev true vs rest =
        Except.ok (List.replicate rest.length Verdict.aboveInvalid) := by
  induction rest with
  | nil => intro prev vs; rfl
  | cons b rest ih =>
    intro prev vs
    simp [Signed.printBlockchainFrom, ih, List.replicate_succ, Except.map]

theorem signed_latch_from (rv : String → String → Bool) (rest : List Signed.Block) :
    ∀ (prev : Signed.Block) (vs : Signed.VerifierState) (out : List Verdict),
      Signed.printBlockchainFrom rv prev false vs rest = Except.ok out →
      ∀ i j, i < j → j < out.length →
        out.get? i = some Verdict.invalid → out.get? j = some Verdict.aboveInvalid := by
  induction rest with
  | nil =>
    intro prev vs out h i j hij hj hi
    simp only [Signed.printBlockchainFrom, Except.ok.injEq] at h
    subst h
    simp at hj
  | cons b rest ih =>
    intro prev vs out h i j hij hj hi
    obtain ⟨j', rfl⟩ : ∃ j', j = j' + 1 := by
      cases j with
      | zero => exact absurd hij (Nat.not_lt_zero i)
      | succ j' => exact ⟨j', rfl⟩
    by_cases hb : b.isPreviousBlock prev
    · cases hv : b.isVerified rv vs with
      | error e =>
        simp [Signed.printBlockchainFrom, hb, hv] at h
      | ok p =>
        obtain ⟨bres, vs'⟩ := p
        cases bres with
        | false =>
          rw [Signed.printBlockchainFrom] at h
          simp only [Bool.false_eq_true, if_false, hb, if_true, hv,
            signed_from_broken, Except.map, Except.ok.injEq] at h
          subst h
          cases i with
          | zero =>
            refine replicate_get?_of_lt _ _ _ ?_
            simp only [List.length_cons, List.length_replicate] at hj
            omega
          | succ i' =>
            rw [List.get?_cons_succ] at hi
            exact absurd (eq_of_replicate_get? hi) (by decide)
        | true =>
          cases hrec : Signed.printBlockchainFrom rv b false vs' rest with
          | error e =>
            simp [Signed.printBlockchainFrom, hb, hv, hrec, Except.map] at h
          | ok out' =>
            rw [Signed.printBlockchainFrom] at h
            simp only [Bool.false_eq_true, if_false, hb, if_true, hv, hrec,
              Except.map, Except.ok.injEq] at h
            subst h
            cases i with
            | zero => simp at hi
            | succ i' =>
              rw [List.get?_cons_succ] at hi
              rw [List.get?_cons_succ]
              have hj' : j' < out'.length := by
                simp only [List.length_cons] at hj
                omega
              exact ih b vs' out' hrec i' j' (Nat.lt_of_succ_lt_succ hij) hj' hi
    · rw [Signed.printBlockchainFrom] at h
      simp only [Bool.false_eq_true, if_false, hb, signed_from_broken,
        Except.map, Except.ok.injEq] at h
      subst h
      cases i with
      | zero =>
        refine replicate_get?_of_lt _ _ _ ?_
        simp only [List.length_cons, List.length_replicate] at hj
        omega
      | succ i' =>
        rw [List.get?_cons_succ] at hi
        exact absurd (eq_of_replicate_get? hi) (by decide)

theorem signed_latch (rv : String → String → Bool) (chain : List Signed.Block)
    (out : List Verdict) (i j : Nat) :
    Signed.printBlockchain rv chain = Except.ok out →
    i < j → j < out.length →
    out.get? i = some Verdict.invalid → out.get? j = some Verdict.aboveInvalid := by
  intro h hij hj hi
  cases chain with
  | nil =>
    simp only [Signed.printBlockchain, Except.ok.injEq] at h
    subst h
    simp at hj
  | cons g rest =>
    rw [Signed.printBlockchain] at h
    cases hrec : Signed.printBlockchainFrom rv g false { buffer := "", finalized := false } rest with
    | error e => rw [hrec] at h; exact absurd h (by simp [Except.map])
    | ok out' =>
      rw [hrec] at h
      simp only [Except.map, Except.ok.injEq] at h
      subst h
      obtain ⟨j', rfl⟩ : ∃ j', j = j' + 1 := by
        cases j with
        | zero => exact absurd hij (Nat.not_lt_zero i)
        | succ j' => exact ⟨j', rfl⟩
      cases i with
      | zero => simp at hi
      | succ i' =>
        rw [List.get?_cons_succ] at hi
        rw [List.get?_cons_succ]
        have hj' : j' < out'.length := by
          simp only [List.length_cons] at hj
          omega
        exact signed_latch_from rv rest g _ out' hrec i' j'
          (Nat.lt_of_succ_lt_succ hij) hj' hi

theorem signed_3chain_not_all_confirmed (rv : String → String → Bool)
    (g b1 b2 : Signed.Block) (s1 : String)
    (h1 : b1.previousHash = g.hash) (h2 : b2.previousHash = b1.hash)
    (hs1 : b1.signature = some s1) :
    Signed.printBlockchain rv [g, b1, b2] ≠
      Except.ok [Verdict.genesis, Verdict.confirmed, Verdict.confirmed] := by
  intro hEq
  have hlink1 : Signed.Block.isPreviousBlock b1 g = true := by
    simp [Signed.Block.isPreviousBlock, h1]
  have hlink2 : Signed.Block.isPreviousBlock b2 b1 = true := by
    simp [Signed.Block.isPreviousBlock, h2]
  cases hrv : rv (Signed.calculateHashPayload b1.previousHash b1.timestamp b1.data
      (some s1)) s1 with
  | false =>
    simp [Signed.printBlockchain, Signed.printBlockchainFrom, Signed.Block.isVerified,
      hlink1, hlink2, hs1, hrv, signed_from_broken, Except.map] at hEq
  | true =>
    simp [Signed.printBlockchain, Signed.printBlockchainFrom, Signed.Block.isVerified,
      hlink1, hlink2, hs1, hrv, signed_from_broken, Except.map] at hEq

/-- Genesis block of the signed variant, hash function instantiated to `id`. -/
def genesisX : Signed.Block := Signed.createGenesisBlock id 0

/-- Honestly appended and signed successor of `genesisX`. -/
def signedB1 : Signed.Block :=
  Signed.mkBlock id
    { previousHash := genesisX.hash, timestamp := 1, data := "a",
      signature := some "S1", hash := none }

/-- Honestly appended and signed successor of `signedB1`. -/
def signedB2 : Signed.Block :=
  Signed.mkBlock id
    { previousHash := signedB1.hash, timestamp := 2, data := "b",
      signature := some "S2", hash := none }

/-- Signed block correctly linked to `genesisX` whose stored `hash` field is
tampered to a value different from the recomputed digest. -/
def bogusHashBlock : Signed.Block :=
  Signed.mkBlock id
    { previousHash := genesisX.hash, timestamp := 1, data := "d",
      signature := some "SIG", hash := some "BOGUS" }

/-- Signed block correctly linked to `genesisX` with an untampered hash. -/
def signedOkBlock : Signed.Block :=
  Signed.mkBlock id
    { previousHash := genesisX.hash, timestamp := 1, data := "d",
      signature := some "SIG", hash := none }

/-- Non-genesis block carrying no signature at all. -/
def unsignedNext : Signed.Block :=
  Signed.mkBlock id
    { previousHash := genesisX.hash, timestamp := 1, data := "d",
      signature := none, hash := none }

/-- Hash-only chain whose middle block has a broken `previousHash` link. -/
def brokenChainH : List HashOnly.Block :=
  [HashOnly.mkBlock id "0" 0 "Genesis" none,
   HashOnly.mkBlock id "wrong" 1 "a" none,
   HashOnly.mkBlock id "x" 2 "b" none]

/-- Signed chain whose middle block has a broken `previousHash` link. -/
def brokenChainS : List Signed.Block :=
  [genesisX,
   Signed.mkBlock id
     { previousHash := "wrong", timestamp := 1, data := "a",
       signature := some "S1", hash := none },
   Signed.mkBlock id
     { previousHash := "x", timestamp := 2, data := "b",
       signature := some "S2", hash := none }]

/-- C1: the claim says that mutating `data` of block `k` in place and
revalidating yields `invalid` at `k` and `above invalid` after it.  On the
cited code (`src/unnamed/part_000`) this fails: `printBlockchain` checks
only linkage and never consults `isVerified`, so a data mutation (which
changes neither `previousHash` nor any stored `hash`) is invisible to the
validator: the verdicts are unchanged, and the spec's own example chain
still reads all-`confirmed` after tampering. -/
theorem hashOnly_tamper_data_undetected :
    (∀ (chain : List HashOnly.Block) (k : Nat) (d : String),
      HashOnly.printBlockchain (HashOnly.setData chain k d) =
        HashOnly.printBlockchain chain) ∧
    HashOnly.printBlockchain
        (HashOnly.setData
          (HashOnly.buildChain id (HashOnly.createGenesisBlock id 0)
            [("pay Alice", 1), ("pay Bob", 2)])
          1 "pay Mallory") =
      [Verdict.genesis, Verdict.confirmed, Verdict.confirmed] :=
  ⟨fun chain k d => hashOnly_setData_printBlockchain chain k d, by decide⟩

/-- C2: for chains built solely by sequential appends the claim expects
`genesis` then all `confirmed`.  This holds in the hash-only variant (first
conjunct, any hash function, any data/timestamps).  In the signed variant
(`src/index.ts`) it provably fails for every chain of two appended blocks:
whatever the arbiter returned and whatever RSA verification yields, the
scan either labels block 1 `invalid` or crashes on block 2 because the
module-global `Verify` object has already been finalized. -/
theorem appendBlock_chain_validation (hashFn : String → String)
    (rv : String → String → Bool) (now t0 t1 t2 : Nat)
    (items : List (String × Nat)) (d1 d2 s1 s2 : String) :
    HashOnly.printBlockchain
        (HashOnly.buildChain hashFn (HashOnly.createGenesisBlock hashFn now) items) =
      Verdict.genesis :: List.replicate items.length Verdict.confirmed ∧
    Signed.printBlockchain rv
        ((Signed.addBlock hashFn (Except.ok s2) d2 t2
          ((Signed.addBlock hashFn (Except.ok s1) d1 t1
            { chain := [Signed.createGenesisBlock hashFn t0],
              saved := [Signed.createGenesisBlock hashFn t0] }).2)).2).chain ≠
      Except.ok [Verdict.genesis, Verdict.confirmed, Verdict.confirmed] := by
  refine ⟨hashOnly_buildChain_confirmed hashFn now items, ?_⟩
  exact signed_3chain_not_all_confirmed rv _ _ _ s1 rfl rfl rfl

/-- C3: in both variants the `errorAfterUnverified` flag is a one-way
latch: in any completed verdict sequence, every position after an
`invalid` verdict is labeled `above invalid` (hence no `confirmed` or
`invalid` ever follows an `invalid`). -/
theorem validator_latch :
    (∀ (chain : List HashOnly.Block) (i j : Nat),
      i < j → j < (HashOnly.printBlockchain chain).length →
      (HashOnly.printBlockchain chain).get? i = some Verdict.invalid →
      (HashOnly.printBlockchain chain).get? j = some Verdict.aboveInvalid) ∧
    (∀ (rv : String → String → Bool) (chain : List Signed.Block)
      (out : List Verdict) (i j : Nat),
      Signed.printBlockchain rv chain = Except.ok out →
      i < j → j < out.length →
      out.get? i = some Verdict.invalid → out.get? j = some Verdict.aboveInvalid) :=
  ⟨fun chain i j => hashOnly_latch chain i j,
   fun rv chain out i j => signed_latch rv chain out i j⟩

/-- Witness for C3 on concrete broken chains of both variants. -/
theorem validator_latch_witness :
    (HashOnly.printBlockchain brokenChainH).get? 2 = some Verdict.aboveInvalid ∧
    ([Verdict.genesis, Verdict.invalid, Verdict.aboveInvalid] : List Verdict).get? 2 =
      some Verdict.aboveInvalid :=
  ⟨validator_latch.1 brokenChainH 1 2 (by decide) (by decide) (by decide),
   validator_latch.2 (fun _ _ => false) brokenChainS
     [Verdict.genesis, Verdict.invalid, Verdict.aboveInvalid] 1 2
     (by decide) (by decide) (by decide) (by decide)⟩

/-- C4, counterexample: a block whose signature verifies (the verification
oracle returns `true`) but whose stored `hash` disagrees with the
recomputed digest is labeled `confirmed` by the signed validator, where
the claim demands `invalid`: the validator never recomputes the hash. -/
theorem signed_storedHash_unchecked_cex :
    Signed.printBlockchain (fun _ _ => true) [genesisX, bogusHashBlock] =
      Except.ok [Verdict.genesis, Verdict.confirmed] ∧
    bogusHashBlock.hash ≠
      id (Signed.calculateHashPayload bogusHashBlock.previousHash
        bogusHashBlock.timestamp bogusHashBlock.data bogusHashBlock.signature) := by
  constructor
  · decide
  · decide

/-- C4, amended: for a non-genesis block reached with the latch unset and a
correct link, the signed validator evaluates only the signature check: if
RSA verification of the payload fails the block is `invalid` (whatever its
stored hash, including a correct one), and if it succeeds the block is
`confirmed` (whatever its stored hash, including a tampered one).  No
stored-hash recomputation is ever consulted. -/
theorem signed_validator_checks (rv : String → String → Bool)
    (g b : Signed.Block) (s : String)
    (hs : b.signature = some s) (hl : b.previousHash = g.hash) :
    (rv (Signed.calculateHashPayload b.previousHash b.timestamp b.data b.signature) s =
        false →
      Signed.printBlockchain rv [g, b] = Except.ok [Verdict.genesis, Verdict.invalid]) ∧
    (rv (Signed.calculateHashPayload b.previousHash b.timestamp b.data b.signature) s =
        true →
      Signed.printBlockchain rv [g, b] = Except.ok [Verdict.genesis, Verdict.confirmed]) := by
  have hlink : Signed.Block.isPreviousBlock b g = true := by
    simp [Signed.Block.isPreviousBlock, hl]
  constructor
  · intro hrv
    rw [hs] at hrv
    simp [Signed.printBlockchain, Signed.printBlockchainFrom, Signed.Block.isVerified,
      hlink, hs, hrv, Except.map]
  · intro hrv
    rw [hs] at hrv
    simp [Signed.printBlockchain, Signed.printBlockchainFrom, Signed.Block.isVerified,
      hlink, hs, hrv, Except.map]

/-- Witness for C4 (amended) on a concrete correctly-hashed block whose
signature check fails. -/
theorem signed_validator_checks_witness :
    signedOkBlock.signature = some "SIG" ∧
    signedOkBlock.previousHash = genesisX.hash ∧
    Signed.printBlockchain (fun _ _ => false) [genesisX, signedOkBlock] =
      Except.ok [Verdict.genesis, Verdict.invalid] :=
  ⟨rfl, rfl,
    (signed_validator_checks (fun _ _ => false) genesisX signedOkBlock "SIG" rfl rfl).1 rfl⟩

/-- C5, counterexample: after a successful `sign()` the stored hash is the
constructor's pre-signature digest (signature interpolated as
"undefined"), not the digest recomputed with the attached signature —
`sign()` never recomputes `this.hash`. -/
theorem sign_hash_not_recomputed_cex :
    Except.map Signed.Block.hash (Signed.generateNextBlock id (Except.ok "SIG") genesisX "d" 1) =
      Except.ok (id (Signed.calculateHashPayload genesisX.hash 1 "d" none)) ∧
    id (Signed.calculateHashPayload genesisX.hash 1 "d" none) ≠
      id (Signed.calculateHashPayload genesisX.hash 1 "d" (some "SIG")) := by
  constructor
  · decide
  · decide

/-- C5, amended: on every block on which `sign()` has completed
successfully, the stored hash equals the pre-signature digest
`hashFn(previousHash ++ timestamp ++ data ++ "undefined")` computed at
construction; the signature is attached but the hash is not recomputed. -/
theorem sign_keeps_presignature_hash (hashFn : String → String) (sig : String)
    (previousBlock : Signed.Block) (blockData : String) (now : Nat) :
    Except.map Signed.Block.hash
        (Signed.generateNextBlock hashFn (Except.ok sig) previousBlock blockData now) =
      Except.ok (hashFn (Signed.calculateHashPayload previousBlock.hash now blockData none)) ∧
    Except.map Signed.Block.signature
        (Signed.generateNextBlock hashFn (Except.ok sig) previousBlock blockData now) =
      Except.ok (some sig) :=
  ⟨rfl, rfl⟩

/-- C6: the claim says `isVerified` returns a boolean, never throws,
returns `false` on a missing signature, and is safe to call on every block
of a chain in one validation pass.  On the code all three fail: with no
signature the getter reaches `verifier.verify(key, this.signature!, "hex")`
with an undefined signature argument and throws (first conjunct, and the
scan of a chain containing such a block aborts, second conjunct); and
because the verifier is a single module-global `Verify` object, the second
block whose verification is attempted in the same pass throws on
`verifier.update` (third conjunct). -/
theorem isVerified_throws :
    Signed.Block.isVerified (fun _ _ => true) { buffer := "", finalized := false }
        unsignedNext =
      Except.error Signed.CryptoError.signatureNotString ∧
    Signed.printBlockchain (fun _ _ => true) [genesisX, unsignedNext] =
      Except.error Signed.CryptoError.signatureNotString ∧
    Signed.printBlockchain (fun _ _ => true) [genesisX, signedB1, signedB2] =
      Except.error Signed.CryptoError.updateAfterFinal := by
  refine ⟨by decide, by decide, by decide⟩

/-- Chain state holding `genesisX` only. -/
def stOne : Signed.ChainState := { chain := [genesisX], saved := [genesisX] }

/-- Chain state holding `genesisX` and `signedB1`, snapshot in sync. -/
def stTwo : Signed.ChainState :=
  { chain := [genesisX, signedB1], saved := [genesisX, signedB1] }

/-- C7: indices `>= length` are rejected with no mutation (first two
conjuncts), but the claim also covers negative indices, and there the code
fails: the guard is only `blockIndex < blockchain.length`, so `-1` passes
it; `splice(-1, 1)` then deletes the **last** block and persists the
shortened chain (third conjunct), and `modifyBlock` with `-1` crashes on
`blockchain[-1].data` after the guard (fourth conjunct, chain unchanged
only because the throw precedes the write). -/
theorem removeBlock_bounds (idx : Int) (msg : String) (st : Signed.ChainState) :
    ((st.chain.length : Int) ≤ idx →
      Signed.removeBlock idx st = (Signed.CliOutcome.rejected, st)) ∧
    ((st.chain.length : Int) ≤ idx →
      Signed.modifyBlock idx msg st = (Signed.CliOutcome.rejected, st)) ∧
    Signed.removeBlock (-1) stTwo =
      (Signed.CliOutcome.performed, { chain := [genesisX], saved := [genesisX] }) ∧
    Signed.modifyBlock (-1) "m" stTwo = (Signed.CliOutcome.crashed, stTwo) := by
  refine ⟨fun h => ?_, fun h => ?_, by decide, by decide⟩
  · have hn : ¬ idx < (st.chain.length : Int) := not_lt.mpr h
    simp [Signed.removeBlock, hn]
  · have hn : ¬ idx < (st.chain.length : Int) := not_lt.mpr h
    simp [Signed.modifyBlock, hn]

/-- Witness for C7 at a concrete out-of-range index. -/
theorem removeBlock_bounds_witness :
    ((stTwo.chain.length : Int) ≤ 5) ∧
    Signed.removeBlock 5 stTwo = (Signed.CliOutcome.rejected, stTwo) ∧
    Signed.modifyBlock 5 "m" stTwo = (Signed.CliOutcome.rejected, stTwo) :=
  ⟨by decide, (removeBlock_bounds 5 "m" stTwo).1 (by decide),
    (removeBlock_bounds 5 "m" stTwo).2.1 (by decide)⟩

/-- C8: when the signing round-trip fails, `generateNextBlock` rejects
before `CLI.addBlock` reaches `blockchain.push`/`saveBlockchain`: the
failure propagates unchanged and both the in-memory chain and the
persisted snapshot are exactly the input state. -/
theorem addBlock_sign_failure_no_mutation (hashFn : String → String)
    (e blockData : String) (now : Nat) (st : Signed.ChainState)
    (previousBlock : Signed.Block) (hp : st.chain.getLast? = some previousBlock) :
    Signed.addBlock hashFn (Except.error e) blockData now st = (Except.error e, st) := by
  simp [Signed.addBlock, hp, Signed.generateNextBlock, Signed.Block.sign, Except.map]

/-- Witness for C8 on a concrete one-block chain and a transport error. -/
theorem addBlock_sign_failure_witness :
    stOne.chain.getLast? = some genesisX ∧
    Signed.addBlock id (Except.error "ECONNREFUSED") "d" 1 stOne =
      (Except.error "ECONNREFUSED", stOne) :=
  ⟨by decide,
    addBlock_sign_failure_no_mutation id "ECONNREFUSED" "d" 1 stOne genesisX (by decide)⟩

/-- Snapshot record with every required field except `hash`. -/
def recNoHash : Signed.IBlock :=
  { previousHash := "p", timestamp := 1, data := "d", signature := none, hash := none }

/-- C9, counterexample: loading a snapshot record with no `hash` field is
not fatal; the `Block` constructor silently substitutes the recomputed
digest (with the absent signature interpolated as "undefined"), so the
loaded block's fields do not equal the stored fields. -/
theorem load_missing_hash_cex :
    Signed.loadBlockchain id [recNoHash] =
      [{ previousHash := "p", timestamp := 1, data := "d",
         hash := "p1dundefined", signature := none }] ∧
    "p1dundefined" = id (Signed.calculateHashPayload "p" 1 "d" none) ∧
    recNoHash.hash = none := by
  refine ⟨by decide, by decide, rfl⟩

/-- C9, amended: loading never fails on a record with a missing `hash`
(or `signature`) field; each loaded block copies `previousHash`,
`timestamp`, `data` and `signature` verbatim from the record, while a
missing `hash` is silently replaced by the digest recomputed from the
record's fields with the signature slot read as undefined. -/
theorem loadBlockchain_fills_missing_hash (hashFn : String → String)
    (records : List Signed.IBlock) (i : Nat) (rec : Signed.IBlock)
    (h : records.get? i = some rec) :
    ∃ b : Signed.Block,
      (Signed.loadBlockchain hashFn records).get? i = some b ∧
      b.previousHash = rec.previousHash ∧
      b.timestamp = rec.timestamp ∧
      b.data = rec.data ∧
      b.signature = rec.signature ∧
      b.hash = rec.hash.getD
        (hashFn (Signed.calculateHashPayload rec.previousHash rec.timestamp rec.data none)) := by
  refine ⟨Signed.mkBlock hashFn rec, ?_, rfl, rfl, rfl, rfl, rfl⟩
  rw [List.get?_eq_getElem?] at h
  simp [Signed.loadBlockchain, List.get?_eq_getElem?, List.getElem?_map, h]

/-- Witness for C9 (amended) on the hash-less record. -/
theorem loadBlockchain_fills_missing_hash_witness :
    ([recNoHash] : List Signed.IBlock).get? 0 = some recNoHash ∧
    ∃ b : Signed.Block,
      (Signed.loadBlockchain id [recNoHash]).get? 0 = some b ∧
      b.previousHash = recNoHash.previousHash ∧
      b.timestamp = recNoHash.timestamp ∧
      b.data = recNoHash.data ∧
      b.signature = recNoHash.signature ∧
      b.hash = recNoHash.hash.getD
        (id (Signed.calculateHashPayload recNoHash.previousHash recNoHash.timestamp
          recNoHash.data none)) :=
  ⟨rfl, loadBlockchain_fills_missing_hash id [recNoHash] 0 recNoHash rfl⟩

/-- C10: before signing, the digest submitted to the arbiter is computed
over `previousHash ++ timestamp ++ data ++ "undefined"` — the absent
signature is interpolated by the template literal as the nine-character
string "undefined" — and that payload differs from
`previousHash ++ timestamp ++ data` alone. -/
theorem presignature_digest_payload (hashFn : String → String)
    (previousBlock : Signed.Block) (blockData : String) (now : Nat) :
    (Signed.preSignBlock hashFn previousBlock blockData now).signature = none ∧
    Signed.signDigest hashFn (Signed.preSignBlock hashFn previousBlock blockData now) =
      hashFn (previousBlock.hash ++ toString now ++ blockData ++ "undefined") ∧
    previousBlock.hash ++ toString now ++ blockData ++ "undefined" ≠
      previousBlock.hash ++ toString now ++ blockData := by
  refine ⟨rfl, ?_, ?_⟩
  · simp [Signed.signDigest, Signed.calculateHash, Signed.preSignBlock, Signed.mkBlock,
      Signed.calculateHashPayload, Signed.sigInterp, String.append_assoc]
  · intro hcontra
    have hlen := congrArg String.length hcontra
    simp only [String.length_append] at hlen
    have h9 : ("undefined" : String).length = 9 := by decide
    omega
